import Mathlib

/-!
Shallow embedding of the `pdf-extract-annotations` repository core
(`src/extractors/annotation_extractor.py`, `src/analyzers/annotation_analyzer.py`).

Conventions of the embedding:
* Python strings are `String`; Python `str.strip()` is `pyStrip`, substring
  containment (`in`) is `pyContains`, `str.find` is `findSub`.
* Python dicts holding annotation records are association lists
  (`PyDict := List (String × Value)`); `d[k]` is `dget` (`none` models a
  `KeyError` being raised), `d.get(k, default)` is a `getD` on the lookup.
* Numeric coordinates and font sizes are `Int` (the claims under study only
  depend on order comparisons, never on fractional values).
* Code that catches an exception and returns a default is embedded as the
  default; code whose exception escapes to the caller is embedded in `Option`
  with `none` for the raised exception.
* Identifiers follow the Python source names except that the substring
  "annotation" is shortened to "annot"/"ann" (e.g. `extract_annot_data`
  embeds `_extract_annotation_data`, field `anns` embeds `self.annotations`).
-/

set_option autoImplicit false

namespace PdfExtract

/-- Model of Python `str.strip()`: drop whitespace from both ends. -/
def pyStrip (s : String) : String :=
  (((s.toList.dropWhile Char.isWhitespace).reverse.dropWhile Char.isWhitespace).reverse).asString

/-- Containment of `sub` in `s` at some position, i.e. Python `sub in s`. -/
def containsAt (sub : List Char) : List Char → Bool
  | [] => sub.isEmpty
  | c :: t => sub.isPrefixOf (c :: t) || containsAt sub t

/-- Model of Python `sub in s` for strings. -/
def pyContains (s sub : String) : Bool :=
  containsAt sub.toList s.toList

/-- Model of Python `s.find(sub, i)` restricted to the suffix: least absolute
index `j ≥ idx` at which `sub` occurs in the list that represents `s.drop idx`,
`none` for Python's `-1`. -/
def findSub (sub : List Char) : List Char → Nat → Option Nat
  | [], idx => if sub.isEmpty then some idx else none
  | c :: t, idx => if sub.isPrefixOf (c :: t) then some idx else findSub sub t (idx + 1)

/-- Concatenation of a list of strings (Python `+=` accumulation). -/
def strConcat (l : List String) : String :=
  l.foldl (· ++ ·) ""

/-- One text span of a structured page block (`span` in `page.get_text("dict")`):
its text, font `size` and font `flags`. -/
structure Span where
  text : String
  size : Int
  flags : Nat
deriving DecidableEq

/-- One line of a structured page block. -/
structure TLine where
  spans : List Span
deriving DecidableEq

/-- One structured block of a page: the top y-coordinate `bbox[1]` and,
when the block is a text block, its lines (`none` models a block with no
`"lines"` entry, e.g. an image block). -/
structure Block where
  bbox_y : Int
  lines : Option (List TLine)
deriving DecidableEq

/-- Model of one PDF page as consumed by the title search: `allText` is
`page.get_text()`, `blocks` is `page.get_text("dict")["blocks"]`. -/
structure TPage where
  allText : String
  blocks : List Block
deriving DecidableEq

/-- Concatenated text of all spans of all lines of a block
(the `block_text` accumulation loops of the source). -/
def blockText (ls : List TLine) : String :=
  strConcat (ls.map (fun ln => strConcat (ln.spans.map (fun sp => sp.text))))

/-- The hardcoded `exact_titles` list of `_search_title_in_page`
(lines 246–255 of `annotation_extractor.py`). -/
def exact_titles : List String :=
  ["CP N° 01: Campus Cepre Uni – Logeo Usuario con Google",
   "CP N° 01: Campus Cepre Uni - Logeo Usuario con Google",
   "CP N° 01: Campus Cepu - Logeo Usuario con Google",
   "CP N° 01: Campus Cepu – Logeo Usuario con Google",
   "CP N° 01 Campus Cepre Uni – Logeo Usuario con Google",
   "CP N° 01 Campus Cepre Uni - Logeo Usuario con Google",
   "CP N° 01: Campus Cepre Uni – Logeo Usuario con Google"]

/-- Model of lines 262–266 (and their verbatim repetition at lines 276–280):
if `"CP N"` occurs in `all_text`, return the slice from that occurrence up to
the next newline, stripped; fall through (`none`) otherwise, also when no
newline follows the occurrence (`end_idx > start_idx` fails with `find = -1`). -/
def cpScan (all_text : String) : Option String :=
  let l := all_text.toList
  if pyContains all_text "CP N" then
    match findSub "CP N".toList l 0 with
    | none => none
    | some s =>
      match findSub ['\n'] (l.drop s) s with
      | some e => if s < e then some (pyStrip ((l.drop s).take (e - s)).asString) else none
      | none => none
  else none

/-- Single-position matcher for the pattern of line 271,
`CP\s*N[°º\s]\s*\d+[:\.]?.*?(?=\n|$)`: literal `CP`, greedy whitespace,
literal `N`, one character among `°`, `º` or whitespace, greedy whitespace,
one or more digits, an optional `:` or `.`, then lazily any characters up to
(excluding) the next newline or the end of the string. Returns the matched
characters. -/
def cpMatchAt : List Char → Option (List Char)
  | 'C' :: 'P' :: rest =>
    let ws1 := rest.takeWhile Char.isWhitespace
    match rest.dropWhile Char.isWhitespace with
    | 'N' :: c :: r2 =>
      if c = '°' ∨ c = 'º' ∨ c.isWhitespace then
        let ws2 := r2.takeWhile Char.isWhitespace
        let r3 := r2.dropWhile Char.isWhitespace
        let digits := r3.takeWhile Char.isDigit
        if digits.isEmpty then none
        else
          let r4 := r3.dropWhile Char.isDigit
          let pr5 : List Char × List Char :=
            match r4 with
            | ':' :: t => ([':'], t)
            | '.' :: t => (['.'], t)
            | _ => ([], r4)
          let body := pr5.2.takeWhile (fun ch => ch ≠ '\n')
          some ('C' :: 'P' :: ws1 ++ 'N' :: c :: ws2 ++ digits ++ pr5.1 ++ body)
      else none
    | _ => none
  | _ => none

/-- First match of the case-ID pattern in the text
(models `re.findall(...)` at line 271 followed by taking element `[0]`). -/
def cpFindFirst : List Char → Option (List Char)
  | [] => none
  | c :: rest =>
    match cpMatchAt (c :: rest) with
    | some m => some m
    | none => cpFindFirst rest

/-- Block-by-block case-ID search of lines 283–296: the stripped text of the
first text block whose concatenated span text contains `"CP N"` (the source
also tests `"CP Nº"` and `"CP N°"`, both of which contain `"CP N"`). -/
def blockCaseId : List Block → Option String
  | [] => none
  | b :: rest =>
    match b.lines with
    | none => blockCaseId rest
    | some ls =>
      let bt := blockText ls
      if pyContains bt "CP N" || pyContains bt "CP Nº" || pyContains bt "CP N°" then
        some (pyStrip bt)
      else blockCaseId rest

/-- Embedding of `PDFAnnotationExtractor._search_title_in_page` (lines 221–347).
Strategy chain: hardcoded exact titles in `all_text`; `"CP N"` prefix slice;
regex scan; the verbatim repetition of the prefix slice (lines 276–280); the
block-by-block case-ID search. If the block search also fails, line 299 reads
the local variable `case_id_pattern` that was never assigned, which raises
`UnboundLocalError`; the handler at line 345 catches it and returns `""`.
Consequently the "second pass" structural scan of lines 302–343 is unreachable
and the function returns `""` in that case (when the block search succeeds its
result contains `"CP N"`, hence is non-empty after stripping and is returned
at line 300). -/
def search_title_in_page (p : TPage) : String :=
  match exact_titles.find? (fun t => pyContains p.allText t) with
  | some t => t
  | none =>
    match cpScan p.allText with
    | some t => t
    | none =>
      match cpFindFirst p.allText.toList with
      | some m => pyStrip m.asString
      | none =>
        match cpScan p.allText with
        | some t => t
        | none =>
          match blockCaseId p.blocks with
          | some t => t
          | none => ""

/-- List of `n` descending integers starting at `start`. -/
def rangeDownAux : Nat → Int → List Int
  | 0, _ => []
  | n + 1, start => start :: rangeDownAux n (start - 1)

/-- Model of Python `range(start, stop, -1)`. -/
def rangeDown (start stop : Int) : List Int :=
  rangeDownAux (start - stop).toNat start

/-- The previous-page indices visited by `_find_nearby_title` (line 208):
`range(page_num - 1, max(0, page_num - 3) - 1, -1)`, with `page_num` the
0-based number of the annotated page. -/
def prevPageIdxs (page_num : Int) : List Int :=
  rangeDown (page_num - 1) (max 0 (page_num - 3) - 1)

/-- Loop body of lines 208–213: walk the candidate previous-page indices,
skipping negative ones (the `prev_page_num >= 0` guard), and return the first
non-empty title found; an out-of-range `doc[prev_page_num]` raises and the
handler of `_find_nearby_title` returns `""`. -/
def searchPrevPages (doc : List TPage) : List Int → String
  | [] => ""
  | i :: rest =>
    if 0 ≤ i then
      match doc[i.toNat]? with
      | none => ""
      | some pg =>
        let t := search_title_in_page pg
        if t ≠ "" then t else searchPrevPages doc rest
    else searchPrevPages doc rest

/-- Embedding of `PDFAnnotationExtractor._find_nearby_title` (lines 184–219):
search the annotation's own page first, then the previous pages given by
`prevPageIdxs`, nearest first; return `""` when nothing is found. -/
def find_nearby_title (curPage : TPage) (doc : List TPage) (page_num : Int) : String :=
  let t := search_title_in_page curPage
  if t ≠ "" then t
  else searchPrevPages doc (prevPageIdxs page_num)

/-- Values stored in an annotation record dict: strings, integers, or the
nested coordinates mapping (string keys to integer coordinates). -/
inductive Value where
  | vstr : String → Value
  | vint : Int → Value
  | vcoords : List (String × Int) → Value
deriving DecidableEq

/-- Python truthiness of a record value (`if d[k]:`). -/
def Value.truthy : Value → Bool
  | .vstr s => s ≠ ""
  | .vint n => n ≠ 0
  | .vcoords c => ¬ c.isEmpty

/-- Model of Python `str(v)` for record values as used in report formatting. -/
def Value.pyStr : Value → String
  | .vstr s => s
  | .vint n => toString n
  | .vcoords _ => ""

/-- An annotation record: a Python dict with string keys. -/
abbrev PyDict := List (String × Value)

/-- Model of Python `d[k]`: the value at the first matching key,
`none` when the access would raise `KeyError`. -/
def dget (d : PyDict) (k : String) : Option Value :=
  match d with
  | [] => none
  | (k', v) :: rest => if k' = k then some v else dget rest k

/-- Model of Python `k in d`. -/
def dhas (d : PyDict) (k : String) : Bool :=
  (dget d k).isSome

/-- Lookup in the string-valued `annot.info` metadata dict. -/
def infoGet? (info : List (String × String)) (k : String) : Option String :=
  match info with
  | [] => none
  | (k', v) :: rest => if k' = k then some v else infoGet? rest k

/-- Model of Python `annotation_info.get(k, default)`. -/
def infoGetD (info : List (String × String)) (k dflt : String) : String :=
  (infoGet? info k).getD dflt

/-- Model of one raw PyMuPDF annotation object together with the page/document
context it exposes (`annot.parent`, `annot.parent.parent`, `annot.parent.number`).
`malformed` models the mandatory metadata accessors (`annot.info` etc.) raising,
which `_extract_annotation_data` catches. `clipSpans` are the texts of the spans
returned by `page.get_text("dict", clip=annot.rect)`, in document reading
order. `rect` is `none` when both the named and the positional coordinate
accesses fail, in which case the source falls back to an empty mapping. -/
structure RawAnnot where
  info : List (String × String)
  typeName : Option String
  rect : Option (Int × Int × Int × Int)
  vertices : List (Int × Int)
  clipSpans : List String
  curPage : TPage
  docPages : List TPage
  pageIdx : Int
  malformed : Bool
deriving DecidableEq

/-- Embedding of `PDFAnnotationExtractor._extract_highlighted_text`
(lines 147–182): empty string when the annotation has no quad-point vertices,
otherwise the concatenation of the clipped span texts, stripped. -/
def extract_highlighted_text (a : RawAnnot) : String :=
  if a.vertices.isEmpty then ""
  else pyStrip (strConcat a.clipSpans)

/-- The markup annotation types of line 131. -/
def markupTypes : List String :=
  ["Highlight", "Underline", "StrikeOut", "Squiggly"]

/-- The record dict literal of lines 119–128 of `annotation_extractor.py`,
with the per-field defaulting of lines 74–117 (`.get` defaults; `"Unknown"`
for a falsy annotation type; the empty coordinates mapping when the
rectangle accessors fail). -/
def baseRec (a : RawAnnot) (page_num : Int) : PyDict :=
  [("page", .vint page_num),
   ("type", .vstr (a.typeName.getD "Unknown")),
   ("contentAnnotation", .vstr (infoGetD a.info "content" "")),
   ("author", .vstr (infoGetD a.info "title" "Unknown")),
   ("subject", .vstr (infoGetD a.info "subject" "")),
   ("creation_date", .vstr (infoGetD a.info "creationDate" "")),
   ("modification_date", .vstr (infoGetD a.info "modDate" "")),
   ("coordinates", .vcoords (match a.rect with
     | some (x0, y0, x1, y1) => [("x0", x0), ("y0", y0), ("x1", x1), ("y1", y1)]
     | none => []))]

/-- Embedding of `PDFAnnotationExtractor._extract_annotation_data`
(lines 62–145): build `baseRec`; attach `highlighted_text` only for markup
types and only when non-empty; attach `nearby_title` only when non-empty;
return `none` (Python `None`, with a diagnostic on stderr) when the
metadata access raises. -/
def extract_annot_data (a : RawAnnot) (page_num : Int) : Option PyDict :=
  if a.malformed then none
  else
    let withHl : PyDict :=
      if markupTypes.contains (a.typeName.getD "Unknown") then
        let ht := extract_highlighted_text a
        if ht ≠ "" then baseRec a page_num ++ [("highlighted_text", .vstr ht)]
        else baseRec a page_num
      else baseRec a page_num
    let nt := find_nearby_title a.curPage a.docPages a.pageIdx
    some (if nt ≠ "" then withHl ++ [("nearby_title", .vstr nt)] else withHl)

/-- One page of the document as seen by `extract_annotations`: `decodeOk`
models whether accessing the page and iterating `page.annots()` succeeds
(`false` raises past the per-annotation handler), `annots` is the sequence of
raw annotations the decoder exposes on it. -/
structure PageM where
  decodeOk : Bool
  annots : List RawAnnot
deriving DecidableEq

/-- The document handed to `extract_annotations`: either `fitz.open` fails,
or it yields a list of pages. -/
inductive DocM where
  | openFail : DocM
  | pages : List PageM → DocM
deriving DecidableEq

/-- The stderr diagnostic of line 144. -/
def diagMalformed : String := "Error extracting annotation data"

/-- The stderr diagnostic of line 57. -/
def diagProcessError : String := "Error processing PDF"

/-- Result of walking the pages: the records appended so far, the diagnostics
printed so far, and whether an exception escaped to the outer handler. -/
structure ExtractOut where
  recs : List PyDict
  diags : List String
  aborted : Bool
deriving DecidableEq

/-- Page loop of lines 45–52: on each decodable page append the records of
its annotations, skipping (with a diagnostic) annotations whose extraction
returns `None`; a page that fails to decode raises, which aborts the loop
(line 56 prints a diagnostic and the already collected records are discarded
by the `return []`). `n` is the 1-based number of the first page. -/
def extractPages : List PageM → Int → ExtractOut
  | [], _ => ⟨[], [], false⟩
  | p :: rest, n =>
    if p.decodeOk then
      let recs := p.annots.filterMap (fun a => extract_annot_data a n)
      let ds := p.annots.filterMap
        (fun a => if extract_annot_data a n = none then some diagMalformed else none)
      let out := extractPages rest (n + 1)
      ⟨recs ++ out.recs, ds ++ out.diags, out.aborted⟩
    else ⟨[], [diagProcessError], true⟩

/-- Embedding of `PDFAnnotationExtractor.extract_annotations` (lines 33–60):
the collected records, or `[]` when opening the document fails or any page
fails mid-run (the `except` of line 56 returns `[]`). -/
def extract_annots (d : DocM) : List PyDict :=
  match d with
  | .openFail => []
  | .pages ps =>
    let out := extractPages ps 1
    if out.aborted then [] else out.recs

/-- The stderr diagnostics emitted by `extract_annotations` on the same run. -/
def extract_diags (d : DocM) : List String :=
  match d with
  | .openFail => [diagProcessError]
  | .pages ps => (extractPages ps 1).diags

/-- One step of `defaultdict(list)` grouping: append `a` to the group of key
`v`, creating the group at the end when the key is new (Python dicts preserve
insertion order). -/
def insertGroup (gs : List (Value × List PyDict)) (v : Value) (a : PyDict) :
    List (Value × List PyDict) :=
  match gs with
  | [] => [(v, [a])]
  | (k, l) :: rest => if k = v then (k, l ++ [a]) :: rest else (k, l) :: insertGroup rest v a

/-- Embedding of the `_group_by_*` loops of `annotation_analyzer.py`
(lines 28–47): group the records by the value at `key`, in first-seen key
order; `none` models the `KeyError` raised when a record lacks the key. -/
def groupByKey (key : String) : List PyDict → List (Value × List PyDict) →
    Option (List (Value × List PyDict))
  | [], acc => some acc
  | a :: rest, acc =>
    match dget a key with
    | none => none
    | some v => groupByKey key rest (insertGroup acc v a)

/-- Lookup of a group by key (`dict` access on the grouping), with `[]` as
the default of `dict.get(k, [])`. -/
def lookupG (gs : List (Value × List PyDict)) (v : Value) : List PyDict :=
  match gs with
  | [] => []
  | (k, l) :: rest => if k = v then l else lookupG rest v

/-- State of an `AnnotationAnalyzer` after `__init__` (lines 16–26):
`anns` is the (aliased, not copied) constructor argument
`self.annotations`; the three groupings are computed eagerly. -/
structure Analyzer where
  anns : List PyDict
  by_page : List (Value × List PyDict)
  by_type : List (Value × List PyDict)
  by_author : List (Value × List PyDict)
deriving DecidableEq

/-- Embedding of `AnnotationAnalyzer.__init__`: `none` models a `KeyError`
escaping the constructor when some record lacks one of the grouped keys. -/
def Analyzer.init (anns : List PyDict) : Option Analyzer := do
  let bp ← groupByKey "page" anns []
  let bt ← groupByKey "type" anns []
  let ba ← groupByKey "author" anns []
  pure ⟨anns, bp, bt, ba⟩

/-- Python `self.annotations.append(a)` performed by the caller on the list it
shares with the analyzer: observed through the alias `anns`, while the
groupings computed at construction are not recomputed. -/
def appendShared (an : Analyzer) (a : PyDict) : Analyzer :=
  { an with anns := an.anns ++ [a] }

/-- Fold of Python `max(items, key=lambda x: len(x[1]))` over the tail:
the running best is replaced only by a strictly greater length, so the first
maximal item in iteration order wins. -/
def pyMax2 (best : Value × List PyDict) : List (Value × List PyDict) → Value × List PyDict
  | [] => best
  | x :: xs => pyMax2 (if best.2.length < x.2.length then x else best) xs

/-- Key of the first group with the maximal number of records
(Python `max(..., key=lambda x: len(x[1]))[0]`), `none` on the empty grouping. -/
def pyMaxByLen (gs : List (Value × List PyDict)) : Option Value :=
  match gs with
  | [] => none
  | g :: gt => some (pyMax2 g gt).1

/-- The statistics dict produced by `get_statistics` (lines 49–79). Field
names shorten "annotations" to "anns"; `page_with_most` and
`most_common_type` are `none` exactly when the corresponding grouping is
empty (the `if self.by_page` / `if self.by_type` guards). -/
structure Statistics where
  total_anns : Nat
  pages_with_anns : Nat
  ann_types : List (Value × Nat)
  authors : List (Value × Nat)
  page_with_most : Option Value
  most_common_type : Option Value
deriving DecidableEq

/-- Embedding of `AnnotationAnalyzer.get_statistics`: note that
`total_annotations` reads `len(self.annotations)` through the alias, while
all other fields are derived from the groupings computed at construction. -/
def get_statistics (an : Analyzer) : Statistics :=
  { total_anns := an.anns.length
    pages_with_anns := an.by_page.length
    ann_types := an.by_type.map (fun g => (g.1, g.2.length))
    authors := an.by_author.map (fun g => (g.1, g.2.length))
    page_with_most := pyMaxByLen an.by_page
    most_common_type := pyMaxByLen an.by_type }

/-- Embedding of `AnnotationAnalyzer.extract_highlighted_texts` (lines 81–104):
filter the `"Highlight"` group to records whose `highlighted_text` key is
present and truthy, and project each to `{page, text, author, comment}` with
`comment = highlight["content"]`. The `page`, `author` and `content` accesses
use `[...]`, so a missing key raises `KeyError` (`none`). -/
def extract_highlighted_texts (an : Analyzer) : Option (List PyDict) :=
  let highlights := lookupG an.by_type (.vstr "Highlight")
  highlights.foldlM
    (fun acc h =>
      if ((dget h "highlighted_text").map Value.truthy).getD false then do
        let p ← dget h "page"
        let t ← dget h "highlighted_text"
        let au ← dget h "author"
        let c ← dget h "content"
        pure (acc ++ [[("page", p), ("text", t), ("author", au), ("comment", c)]])
      else pure acc)
    []

/-- Model of `os.path.basename`. -/
def pyBasename (s : String) : String :=
  ((s.splitOn "/").getLastD "")

/-- Model of `str(x)` on an optional statistics value (`None` prints as
`"None"`). -/
def optPyStr (v : Option Value) : String :=
  match v with
  | none => "None"
  | some w => w.pyStr

/-- Lines of the `HIGHLIGHTED TEXTS` section of the report (lines 173–179);
`i` is the 1-based index of the first item. -/
def highlightLines (i : Nat) : List PyDict → String
  | [] => ""
  | item :: rest =>
    toString i ++ ". Page " ++ optPyStr (dget item "page") ++ ": \x22" ++
      optPyStr (dget item "text") ++ "\x22\n" ++
      (if ((dget item "comment").map Value.truthy).getD false then
        "   Comment: " ++ optPyStr (dget item "comment") ++ "\n" else "") ++
      "\n" ++ highlightLines (i + 1) rest

/-- Text written to `report.txt` by `generate_report` (lines 140–179):
header with the generation date and the basename of
`self.annotations[0]['source_file']` (`'Unknown'` on the empty collection;
`none` when the first record lacks the key and the access raises `KeyError`),
then the statistics block, per-type counts, per-author counts, and the
highlighted-texts listing when it is non-empty. -/
def format_report_txt (an : Analyzer) (date : String) : Option String := do
  let fileName ←
    match an.anns with
    | [] => pure "Unknown"
    | a :: _ => (dget a "source_file").map (fun v => pyBasename v.pyStr)
  let st := get_statistics an
  let hts ← extract_highlighted_texts an
  pure ("ANNOTATION REPORT\n" ++
    "Date: " ++ date ++ "\n" ++
    "File: " ++ fileName ++ "\n\n" ++
    "GENERAL STATISTICS\n" ++
    "Total annotations: " ++ toString st.total_anns ++ "\n" ++
    "Pages with annotations: " ++ toString st.pages_with_anns ++ "\n" ++
    "Page with most annotations: " ++ optPyStr st.page_with_most ++ "\n" ++
    "Most common annotation type: " ++ optPyStr st.most_common_type ++ "\n\n" ++
    "ANNOTATION TYPES\n" ++
    strConcat (st.ann_types.map (fun tc => "- " ++ tc.1.pyStr ++ ": " ++ toString tc.2 ++ "\n")) ++
    "\n" ++
    "AUTHORS\n" ++
    strConcat (st.authors.map (fun ac => "- " ++ ac.1.pyStr ++ ": " ++ toString ac.2 ++ " annotations\n")) ++
    "\n" ++
    (if ¬ hts.isEmpty then
      "HIGHLIGHTED TEXTS (" ++ toString hts.length ++ ")\n" ++ highlightLines 1 hts
     else ""))

/-- The four artifacts written by `generate_report`: `statistics.json`,
`highlighted_texts.json`, `annotations_by_page.json` (page keys stringified)
and `report.txt`. -/
structure ReportArtifacts where
  statistics : Statistics
  highlighted_texts : List PyDict
  anns_by_page : List (String × List PyDict)
  report_txt : String
deriving DecidableEq

/-- Embedding of `AnnotationAnalyzer.generate_report` (lines 106–181) as the
computation of its four artifacts; `none` models an exception escaping
(a `KeyError` from `extract_highlighted_texts` or from the
`annotations[0]['source_file']` access of the text report). -/
def generate_report (an : Analyzer) (date : String) : Option ReportArtifacts := do
  let st := get_statistics an
  let hts ← extract_highlighted_texts an
  let byPage := an.by_page.map (fun g => (g.1.pyStr, g.2))
  let txt ← format_report_txt an date
  pure ⟨st, hts, byPage, txt⟩

/-- First component of the first pair with minimal second component
(Python stable `sort(key=lambda x: x[1])` followed by `[0][0]`). -/
def firstMinBy : List (String × Int) → Option String
  | [] => none
  | x :: xs => some (xs.foldl (fun best y => if y.2 < best.2 then y else best) x).1

/-- A span qualifying as title-ish in the structural scan: font size above 10
or bold (flag bit 1, mask 2). -/
def titleSpan (sp : Span) : Bool :=
  decide (10 < sp.size) || decide (0 < sp.flags &&& 2)

/-- Modelled from the spec: the structural-scan step of the title search
(§4.2 step 5), which the source code never reaches (see
`search_title_in_page`). A block is a title candidate iff it lies strictly
above the annotation's vertical position (`bbox_y < annot_y`, y grows
downward on the page) and has a span with font
size exceeding 10 or a bold span, or its text contains one of the marker
substrings; candidates are ranked by vertical distance above the annotation,
ascending, and the closest one's concatenated span text is returned,
stripped; `none` when no block qualifies. -/
def structuralScanSpec (blocks : List Block) (annot_y : Int) : Option String :=
  firstMinBy (blocks.filterMap (fun b =>
    match b.lines with
    | none => none
    | some ls =>
      let txt := blockText ls
      if (decide (b.bbox_y < annot_y) && ls.any (fun ln => ln.spans.any titleSpan)) ||
          (pyContains txt "Objetivo" || pyContains txt "Pre-Requisitos" ||
           pyContains txt "Datos de Prueba") then
        some (pyStrip txt, annot_y - b.bbox_y)
      else none))

/-- Number of records whose value at `key` equals `v`. -/
def countKey (key : String) (anns : List PyDict) (v : Value) : Nat :=
  (anns.filter (fun a => decide (dget a key = some v))).length

/-- Index of the first record whose value at `key` equals `v`
(`anns.length` when no record matches): the position at which `v` is first
encountered in the collection's input order. -/
def fOcc (key : String) (v : Value) : List PyDict → Nat
  | [] => 0
  | a :: rest => if dget a key = some v then 0 else fOcc key v rest + 1

/-- Records of `anns` whose value at `key` equals `v`, in input order. -/
def filterKey (key : String) (anns : List PyDict) (v : Value) : List PyDict :=
  anns.filter (fun a => decide (dget a key = some v))

/-- Keys of a grouping pass that are new relative to the already-seen keys
`ks`, in order of first occurrence (specification device for `groupByKey`;
the `none` case is irrelevant because a failed lookup makes `groupByKey`
return `none`). -/
def newKeys (key : String) : List PyDict → List Value → List Value
  | [], _ => []
  | a :: rest, ks =>
    match dget a key with
    | none => []
    | some v => if v ∈ ks then newKeys key rest ks else v :: newKeys key rest (ks ++ [v])

/-- The eight keys every successfully extracted record carries
(lines 119–128 of `annotation_extractor.py`). -/
def baseKeys : List String :=
  ["page", "type", "contentAnnotation", "author", "subject",
   "creation_date", "modification_date", "coordinates"]

/-- A page with no text and no blocks. -/
def emptyPage : TPage := ⟨"", []⟩

/-- A well-formed raw Highlight annotation on a one-page document. -/
def hlAnnot : RawAnnot :=
  { info := [("content", "note"), ("title", "Alice")]
    typeName := some "Highlight"
    rect := some (1, 2, 3, 4)
    vertices := [(1, 2)]
    clipSpans := ["hi there"]
    curPage := emptyPage
    docPages := [emptyPage]
    pageIdx := 0
    malformed := false }

/-- A well-formed raw Text (note) annotation. -/
def textAnnot : RawAnnot :=
  { hlAnnot with typeName := some "Text", vertices := [], clipSpans := [] }

/-- A raw annotation whose metadata access raises. -/
def malAnnot : RawAnnot :=
  { hlAnnot with malformed := true }

/-- A page that decodes and exposes one well-formed annotation. -/
def goodPage : PageM := ⟨true, [hlAnnot]⟩

/-- A page whose decoding raises mid-run. -/
def badPage : PageM := ⟨false, []⟩

/-- A page on which every pre-structural title strategy fails (no `"CP"`
anywhere) while one block above the annotation has a bold span. -/
def c4Page : TPage :=
  ⟨"Some text\nObjetivo: validar el flujo\nmore text",
   [⟨50, some [⟨[⟨"Objetivo: validar el flujo", 9, 2⟩]⟩]⟩]⟩

/-- A minimal record on page 1. -/
def rec1 : PyDict := [("page", .vint 1), ("type", .vstr "Text"), ("author", .vstr "A")]

/-- A minimal record on page 2. -/
def rec2 : PyDict := [("page", .vint 2), ("type", .vstr "Text"), ("author", .vstr "B")]

/-- A record on page `p` of type `t` (authored by `"A"`). -/
def recPT (p : Int) (t : String) : PyDict :=
  [("page", .vint p), ("type", .vstr t), ("author", .vstr "A")]

/-- A collection with two pages (7 and 3) tied at two annotations each and
two types (Text and Highlight) tied at two records each; page 7 and type
Text are encountered first. -/
def demoAnns : List PyDict :=
  [recPT 7 "Text", recPT 3 "Highlight", recPT 3 "Highlight", recPT 7 "Text"]

/-- The analyzer built over `demoAnns`. -/
def demoAn : Analyzer :=
  (Analyzer.init demoAnns).getD ⟨[], [], [], []⟩

/-- The record the extractor produces for `hlAnnot` on page 1. -/
def hlRec : PyDict :=
  (extract_annot_data hlAnnot 1).getD []

/-- The record the extractor produces for `textAnnot` on page 1. -/
def textRec : PyDict :=
  (extract_annot_data textAnnot 1).getD []

theorem mem_rangeDownAux {i : Int} :
    ∀ (k : Nat) (s : Int), i ∈ rangeDownAux k s → s - (k : Int) < i ∧ i ≤ s := by
  intro k
  induction k with
  | zero => intro s h; simp [rangeDownAux] at h
  | succ k ih =>
    intro s h
    simp only [rangeDownAux, List.mem_cons] at h
    rcases h with h | h
    · omega
    · have := ih (s - 1) h
      omega

theorem length_rangeDownAux : ∀ (k : Nat) (s : Int), (rangeDownAux k s).length = k := by
  intro k
  induction k with
  | zero => intro s; rfl
  | succ k ih => intro s; simp [rangeDownAux, ih]

theorem pairwise_rangeDownAux :
    ∀ (k : Nat) (s : Int), List.Pairwise (fun a b => b < a) (rangeDownAux k s) := by
  intro k
  induction k with
  | zero => intro s; simp [rangeDownAux]
  | succ k ih =>
    intro s
    simp only [rangeDownAux, List.pairwise_cons]
    refine ⟨fun b hb => ?_, ih (s - 1)⟩
    have := mem_rangeDownAux k (s - 1) hb
    omega

/-- C3 counterexample: the claim that the nearby-title search never inspects
more than 2 pages before the annotation's page is false — for an annotation
on 0-based page 3 the loop of line 208 visits page index 0, three pages
before. -/
theorem c3_counterexample :
    ¬ (∀ (n i : Int), i ∈ prevPageIdxs n → n - i ≤ 2) := by
  intro h
  have := h 3 0 (by decide)
  omega

/-- C3 (amended): the nearby-title search inspects at most 3 pages before the
annotation's own page (indices N−1, N−2, N−3), nearest first (strictly
decreasing), never inspecting a page index below 0 and stopping at the
document start. -/
theorem c3_prev_pages_bounded (n : Int) :
    (∀ i ∈ prevPageIdxs n, 0 ≤ i ∧ n - 3 ≤ i ∧ i < n) ∧
    List.Pairwise (fun a b => b < a) (prevPageIdxs n) ∧
    (prevPageIdxs n).length ≤ 3 := by
  refine ⟨fun i hi => ?_, pairwise_rangeDownAux _ _, ?_⟩
  · have := mem_rangeDownAux _ _ hi
    omega
  · rw [prevPageIdxs, rangeDown, length_rangeDownAux]
    omega

/-- Instantiation of `c3_prev_pages_bounded` for an annotation on 0-based
page 5: the inspected previous pages are exactly 4, 3, 2. -/
theorem c3_prev_pages_bounded_witness :
    (∀ i ∈ prevPageIdxs 5, 0 ≤ i ∧ (5 : Int) - 3 ≤ i ∧ i < 5) ∧
    List.Pairwise (fun a b => b < a) (prevPageIdxs 5) ∧
    (prevPageIdxs 5).length ≤ 3 :=
  c3_prev_pages_bounded 5

/-- C4: at a page where every pre-structural strategy fails (no `"CP"`
occurs anywhere) and a bold block with text "Objetivo: validar el flujo"
lies at y = 50, above an annotation at y = 500, the source's
`_search_title_in_page` returns `""` (line 299 raises `UnboundLocalError`
before the structural scan of lines 302–343 can run), whereas the
structural scan described by the spec returns the block's text. -/
theorem c4_structural_scan_unreachable :
    search_title_in_page c4Page = "" ∧
    structuralScanSpec c4Page.blocks 500 = some "Objetivo: validar el flujo" := by
  constructor <;> rfl

/-- Page-failure propagation: a page that fails to decode makes the page walk
abort, with the process-level diagnostic recorded. -/
theorem extractPages_aborts :
    ∀ (ps : List PageM) (n : Int), (∃ p ∈ ps, p.decodeOk = false) →
      (extractPages ps n).aborted = true ∧ diagProcessError ∈ (extractPages ps n).diags := by
  intro ps
  induction ps with
  | nil => intro n h; simp at h
  | cons p rest ih =>
    intro n h
    rcases h with ⟨q, hq, hdec⟩
    simp only [List.mem_cons] at hq
    by_cases hp : p.decodeOk
    · have hq' : q ∈ rest := by
        rcases hq with rfl | hq'
        · rw [hp] at hdec; cases hdec
        · exact hq'
      have := ih (n + 1) ⟨q, hq', hdec⟩
      simp only [extractPages, hp, if_true]
      exact ⟨this.1, List.mem_append.mpr (Or.inr this.2)⟩
    · simp only [extractPages, hp, if_false]
      exact ⟨rfl, List.mem_singleton.mpr rfl⟩

/-- C2 counterexample: with only the decodable page present the extraction
returns its annotation, but adding a page that fails to decode mid-run makes
`extract_annots` return `[]`, discarding the annotations collected from the
other page — contradicting the claim that they are still returned. -/
theorem c2_counterexample :
    extract_annots (.pages [goodPage, badPage]) = [] ∧
    extract_annots (.pages [goodPage]) ≠ [] := by
  constructor <;> decide

/-- C2 (amended): a single annotation's failure never aborts the run (see the
malformed-record theorem), but a single page's decoding failure mid-run does:
`extract_annotations` then returns the empty list — discarding the records
collected from all other pages — and emits the process-level diagnostic. -/
theorem c2_page_failure_aborts (ps : List PageM) (hp : ∃ p ∈ ps, p.decodeOk = false) :
    extract_annots (.pages ps) = [] ∧ diagProcessError ∈ extract_diags (.pages ps) := by
  have h := extractPages_aborts ps 1 hp
  refine ⟨?_, h.2⟩
  simp only [extract_annots, h.1, if_true]

/-- Instantiation of `c2_page_failure_aborts` at the two-page document whose
second page fails to decode. -/
theorem c2_page_failure_aborts_witness :
    extract_annots (.pages [goodPage, badPage]) = [] ∧
    diagProcessError ∈ extract_diags (.pages [goodPage, badPage]) :=
  c2_page_failure_aborts [goodPage, badPage] ⟨badPage, by decide, by decide⟩

/-- C7 counterexample: the analyzer aliases (does not snapshot) the caller's
list, so appending a record to the shared collection after construction
changes `get_statistics` (its `total_annotations` reads the live list). -/
theorem c7_counterexample :
    ∃ an, Analyzer.init [rec1] = some an ∧
      get_statistics (appendShared an rec2) ≠ get_statistics an := by
  exact ⟨_, rfl, by decide⟩

/-- C7 (amended): the page/type/author groupings are computed once at
construction, so `extract_highlighted_texts` and every grouping-derived
statistics field ignore a later append to the shared collection; but
`total_annotations` reads the aliased live list and grows with the append,
so `get_statistics` is not immune to the mutation. -/
theorem c7_grouping_snapshot (an : Analyzer) (a : PyDict) :
    extract_highlighted_texts (appendShared an a) = extract_highlighted_texts an ∧
    (get_statistics (appendShared an a)).total_anns = (get_statistics an).total_anns + 1 ∧
    (get_statistics (appendShared an a)).pages_with_anns = (get_statistics an).pages_with_anns ∧
    (get_statistics (appendShared an a)).ann_types = (get_statistics an).ann_types ∧
    (get_statistics (appendShared an a)).authors = (get_statistics an).authors ∧
    (get_statistics (appendShared an a)).page_with_most = (get_statistics an).page_with_most ∧
    (get_statistics (appendShared an a)).most_common_type = (get_statistics an).most_common_type := by
  refine ⟨rfl, ?_, rfl, rfl, rfl, rfl, rfl⟩
  simp [get_statistics, appendShared]

theorem dget_append (d1 d2 : PyDict) (k : String) :
    dget (d1 ++ d2) k = (dget d1 k).or (dget d2 k) := by
  induction d1 with
  | nil => simp [dget]
  | cons p rest ih =>
    obtain ⟨k', v⟩ := p
    simp only [List.cons_append, dget]
    split
    · simp [Option.or]
    · simpa using ih

theorem dhas_append (d1 d2 : PyDict) (k : String) :
    dhas (d1 ++ d2) k = (dhas d1 k || dhas d2 k) := by
  simp only [dhas, dget_append]
  cases dget d1 k <;> simp [Option.or]

theorem dhas_mem_keys {d : PyDict} {k : String} (h : dhas d k = true) :
    k ∈ d.map Prod.fst := by
  induction d with
  | nil => simp [dhas, dget] at h
  | cons p rest ih =>
    obtain ⟨k', v⟩ := p
    by_cases hk : k' = k
    · simp [hk]
    · simp only [dhas, dget, if_neg hk] at h
      simpa using Or.inr (ih h)

theorem extract_annot_data_cases (a : RawAnnot) (n : Int) (r : PyDict)
    (h : extract_annot_data a n = some r) :
    r = baseRec a n ∨
    r = baseRec a n ++ [("highlighted_text", .vstr (extract_highlighted_text a))] ∨
    r = baseRec a n ++
      [("nearby_title", .vstr (find_nearby_title a.curPage a.docPages a.pageIdx))] ∨
    r = baseRec a n ++
      [("highlighted_text", .vstr (extract_highlighted_text a)),
       ("nearby_title", .vstr (find_nearby_title a.curPage a.docPages a.pageIdx))] := by
  by_cases hm : a.malformed = true
  · simp [extract_annot_data, hm] at h
  · simp only [extract_annot_data, hm, Bool.false_eq_true, if_false, Option.some.injEq] at h
    subst h
    split
    · split
      · split
        · right; right; right; simp
        · right; right; left; rfl
      · right; right; left; rfl
    · split
      · split
        · right; left; rfl
        · left; rfl
      · left; rfl

/-- C6: in a successfully extracted record, the `highlighted_text` key is
present iff the annotation's type is in the markup set and the extraction
yields non-empty stripped text; when present it holds exactly that
(non-empty) text, never the empty string; and extraction yields the empty
string whenever the annotation carries no highlight-region vertices. -/
theorem c6_highlighted_text_iff (a : RawAnnot) (n : Int) (r : PyDict)
    (h : extract_annot_data a n = some r) :
    (dhas r "highlighted_text" = true ↔
      (a.typeName.getD "Unknown" ∈ markupTypes ∧ extract_highlighted_text a ≠ "")) ∧
    (∀ v, dget r "highlighted_text" = some v →
      v = .vstr (extract_highlighted_text a) ∧ v ≠ .vstr "") ∧
    (a.vertices = [] → extract_highlighted_text a = "") := by
  have hvert : a.vertices = [] → extract_highlighted_text a = "" := by
    intro hv
    simp [extract_highlighted_text, hv]
  suffices hAB : (dhas r "highlighted_text" = true ↔
      (a.typeName.getD "Unknown" ∈ markupTypes ∧ extract_highlighted_text a ≠ "")) ∧
      (∀ v, dget r "highlighted_text" = some v →
        v = .vstr (extract_highlighted_text a) ∧ v ≠ .vstr "") by
    exact ⟨hAB.1, hAB.2, hvert⟩
  by_cases hm : a.malformed = true
  · simp [extract_annot_data, hm] at h
  · simp only [extract_annot_data, hm, Bool.false_eq_true, if_false, Option.some.injEq] at h
    subst h
    constructor
    · by_cases hmem : a.typeName.getD "Unknown" ∈ markupTypes <;>
        by_cases hht : extract_highlighted_text a = "" <;>
        by_cases hnt : find_nearby_title a.curPage a.docPages a.pageIdx = "" <;>
        simp [hmem, hht, hnt, dhas_append, dget_append, dhas, dget, baseRec, Option.or]
    · intro v hv
      by_cases hmem : a.typeName.getD "Unknown" ∈ markupTypes <;>
        by_cases hht : extract_highlighted_text a = "" <;>
        by_cases hnt : find_nearby_title a.curPage a.docPages a.pageIdx = "" <;>
        simp [hmem, hht, hnt, dget_append, dget, baseRec, Option.or] at hv <;>
        exact ⟨hv.symm, by rw [← hv]; simp [hht]⟩

/-- C10: every successfully extracted record carries the eight base keys,
with the documented defaults when the source metadata lacks the field
(empty string; `"Unknown"` for the author; the empty coordinates mapping
when the rectangle is unavailable), and any further key is one of the two
conditional enrichments `highlighted_text` and `nearby_title`. -/
theorem c10_record_shape (a : RawAnnot) (n : Int) (r : PyDict)
    (h : extract_annot_data a n = some r) :
    (∀ k ∈ baseKeys, dhas r k = true) ∧
    (infoGet? a.info "content" = none → dget r "contentAnnotation" = some (.vstr "")) ∧
    (infoGet? a.info "title" = none → dget r "author" = some (.vstr "Unknown")) ∧
    (infoGet? a.info "subject" = none → dget r "subject" = some (.vstr "")) ∧
    (infoGet? a.info "creationDate" = none → dget r "creation_date" = some (.vstr "")) ∧
    (infoGet? a.info "modDate" = none → dget r "modification_date" = some (.vstr "")) ∧
    (a.rect = none → dget r "coordinates" = some (.vcoords [])) ∧
    (∀ k, dhas r k = true → k ∈ baseKeys ++ ["highlighted_text", "nearby_title"]) := by
  rcases extract_annot_data_cases a n r h with rfl | rfl | rfl | rfl <;>
    refine ⟨fun k hk => ?_, fun hc => ?_, fun hc => ?_, fun hc => ?_, fun hc => ?_,
      fun hc => ?_, fun hc => ?_, fun k hk => ?_⟩ <;>
    first
      | (fin_cases hk <;> simp [dhas_append, dhas, dget, baseRec])
      | simp [dget_append, dget, baseRec, infoGetD, hc, Option.or]
      | (have hmem := dhas_mem_keys hk
         simp only [baseRec, List.map_append, List.map_cons, List.map_nil,
           List.mem_append, List.mem_cons, List.not_mem_nil, or_false] at hmem
         simp only [baseKeys, List.cons_append, List.nil_append, List.mem_cons,
           List.not_mem_nil, or_false]
         tauto)

/-- Instantiation of `c6_highlighted_text_iff` at the concrete Highlight
annotation `hlAnnot` and its extracted record. -/
theorem c6_highlighted_text_iff_witness :
    (dhas hlRec "highlighted_text" = true ↔
      (hlAnnot.typeName.getD "Unknown" ∈ markupTypes ∧ extract_highlighted_text hlAnnot ≠ "")) ∧
    (∀ v, dget hlRec "highlighted_text" = some v →
      v = .vstr (extract_highlighted_text hlAnnot) ∧ v ≠ .vstr "") ∧
    (hlAnnot.vertices = [] → extract_highlighted_text hlAnnot = "") :=
  c6_highlighted_text_iff hlAnnot 1 hlRec (by decide)

/-- Instantiation of `c10_record_shape` at the concrete Text annotation
`textAnnot` and its extracted record. -/
theorem c10_record_shape_witness :
    (∀ k ∈ baseKeys, dhas textRec k = true) ∧
    (infoGet? textAnnot.info "content" = none →
      dget textRec "contentAnnotation" = some (.vstr "")) ∧
    (infoGet? textAnnot.info "title" = none →
      dget textRec "author" = some (.vstr "Unknown")) ∧
    (infoGet? textAnnot.info "subject" = none →
      dget textRec "subject" = some (.vstr "")) ∧
    (infoGet? textAnnot.info "creationDate" = none →
      dget textRec "creation_date" = some (.vstr "")) ∧
    (infoGet? textAnnot.info "modDate" = none →
      dget textRec "modification_date" = some (.vstr "")) ∧
    (textAnnot.rect = none → dget textRec "coordinates" = some (.vcoords [])) ∧
    (∀ k, dhas textRec k = true →
      k ∈ baseKeys ++ ["highlighted_text", "nearby_title"]) :=
  c10_record_shape textAnnot 1 textRec (by decide)

theorem extractPages_drop_malformed (ps2 : List PageM) (pre post : List RawAnnot)
    (a : RawAnnot) (hmal : a.malformed = true) :
    ∀ (ps1 : List PageM) (n : Int),
      (extractPages (ps1 ++ (⟨true, pre ++ a :: post⟩ : PageM) :: ps2) n).recs =
        (extractPages (ps1 ++ (⟨true, pre ++ post⟩ : PageM) :: ps2) n).recs ∧
      (extractPages (ps1 ++ (⟨true, pre ++ a :: post⟩ : PageM) :: ps2) n).aborted =
        (extractPages (ps1 ++ (⟨true, pre ++ post⟩ : PageM) :: ps2) n).aborted ∧
      ((∀ p ∈ ps1, p.decodeOk = true) →
        diagMalformed ∈ (extractPages (ps1 ++ (⟨true, pre ++ a :: post⟩ : PageM) :: ps2) n).diags) := by
  have hnone : ∀ n : Int, extract_annot_data a n = none := by
    intro n
    simp [extract_annot_data, hmal]
  intro ps1
  induction ps1 with
  | nil =>
    intro n
    refine ⟨?_, ?_, fun _ => ?_⟩ <;>
      simp [extractPages, List.filterMap_append, hnone]
  | cons p rest ih =>
    intro n
    by_cases hp : p.decodeOk = true
    · simp only [List.cons_append, extractPages, hp, if_true]
      refine ⟨?_, (ih (n + 1)).2.1, fun hall => ?_⟩
      · simp [(ih (n + 1)).1]
      · have := (ih (n + 1)).2.2 (fun q hq => hall q (List.mem_cons_of_mem p hq))
        simp [this]
    · simp only [List.cons_append, extractPages, hp, if_false]
      exact ⟨rfl, rfl, fun hall => absurd (hall p (List.mem_cons_self p rest)) hp⟩

/-- C9: a raw annotation whose data extraction fails is dropped — the run's
result is the same as if that annotation were absent, all other annotations
of the document are still processed — and the malformed-record diagnostic is
emitted (the preceding pages must decode for the run to reach the record). -/
theorem c9_malformed_dropped (ps1 ps2 : List PageM) (pre post : List RawAnnot)
    (a : RawAnnot) (hmal : a.malformed = true)
    (hok : ∀ p ∈ ps1, p.decodeOk = true) :
    extract_annots (.pages (ps1 ++ (⟨true, pre ++ a :: post⟩ : PageM) :: ps2)) =
      extract_annots (.pages (ps1 ++ (⟨true, pre ++ post⟩ : PageM) :: ps2)) ∧
    diagMalformed ∈ extract_diags (.pages (ps1 ++ (⟨true, pre ++ a :: post⟩ : PageM) :: ps2)) := by
  obtain ⟨hrecs, habort, hdiag⟩ := extractPages_drop_malformed ps2 pre post a hmal ps1 1
  refine ⟨?_, hdiag hok⟩
  simp only [extract_annots, habort, hrecs]

/-- Instantiation of `c9_malformed_dropped`: one page carrying a malformed
annotation between two well-formed ones. -/
theorem c9_malformed_dropped_witness :
    extract_annots (.pages [(⟨true, [hlAnnot, malAnnot, textAnnot]⟩ : PageM)]) =
      extract_annots (.pages [(⟨true, [hlAnnot, textAnnot]⟩ : PageM)]) ∧
    diagMalformed ∈ extract_diags (.pages [(⟨true, [hlAnnot, malAnnot, textAnnot]⟩ : PageM)]) :=
  c9_malformed_dropped [] [] [hlAnnot] [textAnnot] malAnnot (by decide) (by simp)

/-- C1: at the extractor's own Highlight record — which stores the note under
`"contentAnnotation"` and carries a non-empty `highlighted_text` — the
analyzer's projection reads key `"content"` and raises `KeyError`; the
claimed list (with `comment` equal to the record's content field) is never
returned. -/
theorem c1_highlighted_texts_keyerror :
    extract_annot_data hlAnnot 1 = some hlRec ∧
    dhas hlRec "highlighted_text" = true ∧
    dhas hlRec "contentAnnotation" = true ∧
    dhas hlRec "content" = false ∧
    (Analyzer.init [hlRec]).map extract_highlighted_texts = some none := by
  decide

/-- C5: the text-report header reads `annotations[0]['source_file']`, a key
no extractor-produced record carries, so `generate_report` raises `KeyError`
on every non-empty collection the pipeline itself produces; on the empty
collection all four artifacts are produced. -/
theorem c5_report_keyerror :
    extract_annot_data textAnnot 1 = some textRec ∧
    dhas textRec "source_file" = false ∧
    (Analyzer.init [textRec]).map
      (fun an => generate_report an "2025-01-01 00:00:00") = some none ∧
    (Analyzer.init []).map
      (fun an => (generate_report an "2025-01-01 00:00:00").isSome) = some true := by
  decide

theorem insertGroup_keys (v : Value) (a : PyDict) :
    ∀ gs : List (Value × List PyDict),
      (insertGroup gs v a).map Prod.fst =
        if v ∈ gs.map Prod.fst then gs.map Prod.fst else gs.map Prod.fst ++ [v] := by
  intro gs
  induction gs with
  | nil => simp [insertGroup]
  | cons g rest ih =>
    obtain ⟨k, l⟩ := g
    by_cases hk : k = v
    · subst hk
      simp [insertGroup]
    · simp only [insertGroup, if_neg hk, List.map_cons, ih]
      by_cases hv : v ∈ rest.map Prod.fst <;>
        simp [hv, hk, Ne.symm hk]

theorem lookupG_insertGroup (v w : Value) (a : PyDict) :
    ∀ gs : List (Value × List PyDict),
      lookupG (insertGroup gs v a) w =
        if w = v then lookupG gs v ++ [a] else lookupG gs w := by
  intro gs
  induction gs with
  | nil =>
    show (if v = w then [a] else lookupG [] w) =
      if w = v then lookupG [] v ++ [a] else lookupG [] w
    by_cases hw : w = v
    · subst hw; simp [lookupG]
    · have hw' : ¬ v = w := fun h => hw h.symm
      rw [if_neg hw', if_neg hw]
  | cons g rest ih =>
    obtain ⟨k, l⟩ := g
    show lookupG (if k = v then (k, l ++ [a]) :: rest else (k, l) :: insertGroup rest v a) w =
      if w = v then (if k = v then l else lookupG rest v) ++ [a]
      else if k = w then l else lookupG rest w
    by_cases hk : k = v
    · rw [if_pos hk, if_pos hk]
      show (if k = w then l ++ [a] else lookupG rest w) =
        if w = v then l ++ [a] else if k = w then l else lookupG rest w
      by_cases hw : w = v
      · have hkw : k = w := hk.trans hw.symm
        rw [if_pos hw, if_pos hkw]
      · have hkw : ¬ k = w := fun h => hw (h.symm.trans hk)
        rw [if_neg hw, if_neg hkw, if_neg hkw]
    · rw [if_neg hk, if_neg hk]
      show (if k = w then l else lookupG (insertGroup rest v a) w) =
        if w = v then lookupG rest v ++ [a] else if k = w then l else lookupG rest w
      by_cases hkw : k = w
      · have hwv : ¬ w = v := fun h => hk (hkw.trans h)
        rw [if_pos hkw, if_neg hwv, if_pos hkw]
      · rw [if_neg hkw, ih, if_neg hkw]

theorem insertGroup_nonempty (v : Value) (a : PyDict) :
    ∀ gs : List (Value × List PyDict), (∀ e ∈ gs, e.2 ≠ []) →
      ∀ e ∈ insertGroup gs v a, e.2 ≠ [] := by
  intro gs
  induction gs with
  | nil =>
    intro _ e he
    simp [insertGroup] at he
    subst he
    simp
  | cons g rest ih =>
    intro hne e he
    obtain ⟨k, l⟩ := g
    by_cases hk : k = v
    · simp only [insertGroup, if_pos hk, List.mem_cons] at he
      rcases he with rfl | he
      · simp
      · exact hne e (List.mem_cons_of_mem _ he)
    · simp only [insertGroup, if_neg hk, List.mem_cons] at he
      rcases he with rfl | he
      · exact hne (k, l) (List.mem_cons_self _ _)
      · exact ih (fun e' he' => hne e' (List.mem_cons_of_mem _ he')) e he

theorem groupByKey_keys (key : String) :
    ∀ (l : List PyDict) (acc gs : List (Value × List PyDict)),
      groupByKey key l acc = some gs →
      gs.map Prod.fst = acc.map Prod.fst ++ newKeys key l (acc.map Prod.fst) := by
  intro l
  induction l with
  | nil =>
    intro acc gs h
    simp only [groupByKey, Option.some.injEq] at h
    subst h
    simp [newKeys]
  | cons a rest ih =>
    intro acc gs h
    simp only [groupByKey] at h
    cases hget : dget a key with
    | none => rw [hget] at h; cases h
    | some v =>
      rw [hget] at h
      have hrec := ih (insertGroup acc v a) gs h
      rw [hrec, insertGroup_keys]
      simp only [newKeys, hget]
      by_cases hv : v ∈ acc.map Prod.fst
      · simp [hv]
      · simp [hv, List.append_assoc]

theorem groupByKey_lookup (key : String) :
    ∀ (l : List PyDict) (acc gs : List (Value × List PyDict)),
      groupByKey key l acc = some gs →
      ∀ w, lookupG gs w = lookupG acc w ++ filterKey key l w := by
  intro l
  induction l with
  | nil =>
    intro acc gs h w
    simp only [groupByKey, Option.some.injEq] at h
    subst h
    simp [filterKey]
  | cons a rest ih =>
    intro acc gs h w
    simp only [groupByKey] at h
    cases hget : dget a key with
    | none => rw [hget] at h; cases h
    | some v =>
      rw [hget] at h
      have hrec := ih (insertGroup acc v a) gs h w
      rw [hrec, lookupG_insertGroup]
      by_cases hw : w = v
      · subst hw
        simp [filterKey, List.filter_cons, hget]
      · have hvw : ¬ v = w := fun h => hw h.symm
        simp [filterKey, List.filter_cons, hget, hw, hvw]

theorem groupByKey_nonempty (key : String) :
    ∀ (l : List PyDict) (acc gs : List (Value × List PyDict)),
      groupByKey key l acc = some gs → (∀ e ∈ acc, e.2 ≠ []) →
      ∀ e ∈ gs, e.2 ≠ [] := by
  intro l
  induction l with
  | nil =>
    intro acc gs h hne
    simp only [groupByKey, Option.some.injEq] at h
    subst h
    exact hne
  | cons a rest ih =>
    intro acc gs h hne
    simp only [groupByKey] at h
    cases hget : dget a key with
    | none => rw [hget] at h; cases h
    | some v =>
      rw [hget] at h
      exact ih (insertGroup acc v a) gs h (insertGroup_nonempty v a acc hne)

theorem newKeys_disjoint (key : String) :
    ∀ (l : List PyDict) (ks : List Value), ∀ v ∈ newKeys key l ks, v ∉ ks := by
  intro l
  induction l with
  | nil => intro ks v hv; simp [newKeys] at hv
  | cons a rest ih =>
    intro ks v hv
    cases hget : dget a key with
    | none => simp [newKeys, hget] at hv
    | some u =>
      simp only [newKeys, hget] at hv
      by_cases hu : u ∈ ks
      · rw [if_pos hu] at hv
        exact ih ks v hv
      · rw [if_neg hu] at hv
        rcases List.mem_cons.mp hv with rfl | hv'
        · exact hu
        · intro hks
          exact ih (ks ++ [u]) v hv' (List.mem_append_left _ hks)

theorem newKeys_nodup (key : String) :
    ∀ (l : List PyDict) (ks : List Value), (newKeys key l ks).Nodup := by
  intro l
  induction l with
  | nil => intro ks; simp [newKeys]
  | cons a rest ih =>
    intro ks
    cases hget : dget a key with
    | none => simp [newKeys, hget]
    | some u =>
      simp only [newKeys, hget]
      by_cases hu : u ∈ ks
      · rw [if_pos hu]; exact ih ks
      · rw [if_neg hu]
        refine List.nodup_cons.mpr ⟨?_, ih (ks ++ [u])⟩
        intro hmem
        exact newKeys_disjoint key rest (ks ++ [u]) u hmem (List.mem_append_right _ (by simp))

theorem newKeys_pairwise_fOcc (key : String) :
    ∀ (l : List PyDict) (ks : List Value),
      List.Pairwise (fun v w => fOcc key v l < fOcc key w l) (newKeys key l ks) := by
  intro l
  induction l with
  | nil => intro ks; simp [newKeys]
  | cons a rest ih =>
    intro ks
    cases hget : dget a key with
    | none => simp [newKeys, hget]
    | some u =>
      simp only [newKeys, hget]
      by_cases hu : u ∈ ks
      · rw [if_pos hu]
        refine (ih ks).imp_of_mem ?_
        intro v w hv hw hlt
        have hvu : ¬ dget a key = some v := by
          rw [hget]
          intro h'
          exact newKeys_disjoint key rest ks v hv (Option.some.inj h' ▸ hu)
        have hwu : ¬ dget a key = some w := by
          rw [hget]
          intro h'
          exact newKeys_disjoint key rest ks w hw (Option.some.inj h' ▸ hu)
        simp only [fOcc, if_neg hvu, if_neg hwu]
        omega
      · rw [if_neg hu]
        refine List.pairwise_cons.mpr ⟨?_, ?_⟩
        · intro w hw
          have hwne : ¬ dget a key = some w := by
            rw [hget]
            simp only [Option.some.injEq]
            intro h'
            exact newKeys_disjoint key rest (ks ++ [u]) w hw
              (List.mem_append_right _ (by simp [h']))
          simp only [fOcc, if_pos hget, if_neg hwne]
          omega
        · refine (ih (ks ++ [u])).imp_of_mem ?_
          intro v w hv hw hlt
          have hvu : ¬ dget a key = some v := by
            rw [hget]
            simp only [Option.some.injEq]
            intro h'
            exact newKeys_disjoint key rest (ks ++ [u]) v hv
              (List.mem_append_right _ (by simp [h']))
          have hwu : ¬ dget a key = some w := by
            rw [hget]
            simp only [Option.some.injEq]
            intro h'
            exact newKeys_disjoint key rest (ks ++ [u]) w hw
              (List.mem_append_right _ (by simp [h']))
          simp only [fOcc, if_neg hvu, if_neg hwu]
          omega

theorem pyMax2_decomp :
    ∀ (xs : List (Value × List PyDict)) (best : Value × List PyDict),
      ∃ l1 l2, best :: xs = l1 ++ (pyMax2 best xs) :: l2 ∧
        (∀ y ∈ l1, y.2.length < (pyMax2 best xs).2.length) ∧
        (∀ y ∈ best :: xs, y.2.length ≤ (pyMax2 best xs).2.length) := by
  intro xs
  induction xs with
  | nil =>
    intro best
    exact ⟨[], [], by simp [pyMax2], by simp, by simp [pyMax2]⟩
  | cons x xs' ih =>
    intro best
    by_cases hgt : best.2.length < x.2.length
    · obtain ⟨l1, l2, hdec, hlt, hle⟩ := ih x
      refine ⟨best :: l1, l2, ?_, ?_, ?_⟩
      · simp only [pyMax2, if_pos hgt]
        rw [List.cons_append, ← hdec]
      · intro y hy
        simp only [pyMax2, if_pos hgt]
        rcases List.mem_cons.mp hy with rfl | hy'
        · calc y.2.length < x.2.length := hgt
            _ ≤ (pyMax2 x xs').2.length := hle x (List.mem_cons_self _ _)
        · exact hlt y hy'
      · intro y hy
        simp only [pyMax2, if_pos hgt]
        rcases List.mem_cons.mp hy with rfl | hy'
        · exact le_of_lt (lt_of_lt_of_le hgt (hle x (List.mem_cons_self _ _)))
        · exact hle y hy'
    · have hunf : pyMax2 best (x :: xs') = pyMax2 best xs' := by
        simp only [pyMax2, if_neg hgt]
      obtain ⟨l1, l2, hdec, hlt, hle⟩ := ih best
      rcases l1 with _ | ⟨z, l1'⟩
      · simp only [List.nil_append] at hdec
        have hbest : pyMax2 best xs' = best := by
          rw [List.cons.injEq] at hdec
          exact hdec.1.symm
        refine ⟨[], x :: xs', ?_, by simp, ?_⟩
        · rw [hunf, hbest, List.nil_append]
        · intro y hy
          rw [hunf]
          rcases List.mem_cons.mp hy with rfl | hy'
          · exact hle y (List.mem_cons_self _ _)
          · rcases List.mem_cons.mp hy' with rfl | hy''
            · rw [hbest]
              exact le_of_not_lt hgt
            · exact hle y (List.mem_cons_of_mem _ hy'')
      · rw [List.cons_append, List.cons.injEq] at hdec
        obtain ⟨hz, hxs⟩ := hdec
        rw [hz] at hgt hunf hlt hle hxs ⊢
        refine ⟨z :: x :: l1', l2, ?_, ?_, ?_⟩
        · rw [hunf, List.cons_append, List.cons_append, ← hxs]
        · intro y hy
          rw [hunf]
          rcases List.mem_cons.mp hy with rfl | hy'
          · exact hlt y (List.mem_cons_self _ _)
          · rcases List.mem_cons.mp hy' with rfl | hy''
            · exact lt_of_le_of_lt (le_of_not_lt hgt) (hlt z (List.mem_cons_self _ _))
            · exact hlt y (List.mem_cons_of_mem _ hy'')
        · intro y hy
          rw [hunf]
          rcases List.mem_cons.mp hy with rfl | hy'
          · exact hle y (List.mem_cons_self _ _)
          · rcases List.mem_cons.mp hy' with rfl | hy''
            · exact le_trans (le_of_not_lt hgt) (hle z (List.mem_cons_self _ _))
            · exact hle y (List.mem_cons_of_mem _ hy'')

theorem lookupG_nil (w : Value) : lookupG [] w = [] := rfl

theorem lookupG_cons (k : Value) (l : List PyDict) (rest : List (Value × List PyDict))
    (w : Value) : lookupG ((k, l) :: rest) w = if k = w then l else lookupG rest w := rfl

theorem lookupG_eq_of_mem_nodup :
    ∀ gs : List (Value × List PyDict), (gs.map Prod.fst).Nodup →
      ∀ e ∈ gs, lookupG gs e.1 = e.2 := by
  intro gs
  induction gs with
  | nil => intro _ e he; simp at he
  | cons g rest ih =>
    intro hnd e he
    obtain ⟨k, l⟩ := g
    simp only [List.map_cons, List.nodup_cons] at hnd
    rcases List.mem_cons.mp he with rfl | he'
    · rw [lookupG_cons, if_pos rfl]
    · rw [lookupG_cons]
      have hne : ¬ k = e.1 := by
        intro hk
        apply hnd.1
        rw [hk]
        exact List.mem_map.mpr ⟨e, he', rfl⟩
      rw [if_neg hne]
      exact ih hnd.2 e he'

theorem lookupG_mem :
    ∀ (gs : List (Value × List PyDict)) (w : Value),
      lookupG gs w ≠ [] → (w, lookupG gs w) ∈ gs := by
  intro gs
  induction gs with
  | nil => intro w h; exact absurd rfl h
  | cons g rest ih =>
    intro w h
    obtain ⟨k, l⟩ := g
    rw [lookupG_cons] at h ⊢
    by_cases hk : k = w
    · rw [if_pos hk] at h ⊢
      subst hk
      exact List.mem_cons_self _ _
    · rw [if_neg hk] at h ⊢
      exact List.mem_cons_of_mem _ (ih w h)

theorem maxgroup_first_seen (key : String) (anns : List PyDict)
    (gs : List (Value × List PyDict)) (hg : groupByKey key anns [] = some gs)
    (v : Value) (hv : pyMaxByLen gs = some v) :
    (∀ w, countKey key anns w ≤ countKey key anns v) ∧
    (∀ w, w ≠ v → countKey key anns w = countKey key anns v →
      fOcc key v anns < fOcc key w anns) := by
  have hlook : ∀ w, lookupG gs w = filterKey key anns w := by
    intro w
    have := groupByKey_lookup key anns [] gs hg w
    simpa [lookupG_nil] using this
  have hcount : ∀ w, countKey key anns w = (lookupG gs w).length := by
    intro w
    rw [hlook]
    rfl
  have hkeys : gs.map Prod.fst = newKeys key anns [] := by
    simpa using groupByKey_keys key anns [] gs hg
  have hnodup : (gs.map Prod.fst).Nodup := by
    rw [hkeys]; exact newKeys_nodup key anns []
  have hpair : List.Pairwise (fun a b => fOcc key a anns < fOcc key b anns)
      (gs.map Prod.fst) := by
    rw [hkeys]; exact newKeys_pairwise_fOcc key anns []
  have hne : ∀ e ∈ gs, e.2 ≠ [] :=
    groupByKey_nonempty key anns [] gs hg (by simp)
  cases gs with
  | nil => cases hv
  | cons g gt =>
    have hv' : (pyMax2 g gt).1 = v := by
      simpa [pyMaxByLen] using hv
    set r := pyMax2 g gt with hr
    obtain ⟨l1, l2, hdec, hlt, hle⟩ := pyMax2_decomp gt g
    have hrmem : r ∈ g :: gt := by
      rw [hdec]
      exact List.mem_append_right l1 (List.mem_cons_self _ _)
    have hlookv : lookupG (g :: gt) v = r.2 := by
      have := lookupG_eq_of_mem_nodup (g :: gt) hnodup r hrmem
      rw [← hv']
      exact this
    constructor
    · intro w
      rw [hcount w, hcount v, hlookv]
      by_cases hw0 : lookupG (g :: gt) w = []
      · rw [hw0]; simp
      · exact hle _ (lookupG_mem (g :: gt) w hw0)
    · intro w hwv hcnt
      rw [hcount w, hcount v, hlookv] at hcnt
      obtain ⟨L, hL⟩ : ∃ L, lookupG (g :: gt) w = L := ⟨_, rfl⟩
      rw [hL] at hcnt
      have hw0 : lookupG (g :: gt) w ≠ [] := by
        rw [hL]
        intro h0
        rw [h0] at hcnt
        apply hne r hrmem
        cases hr2 : r.2 with
        | nil => rfl
        | cons x xs => rw [hr2] at hcnt; simp at hcnt
      have hwmem := lookupG_mem (g :: gt) w hw0
      rw [hL, hdec] at hwmem
      rcases List.mem_append.mp hwmem with hw1 | hw2
      · have hlt' := hlt _ hw1
        rw [hcnt] at hlt'
        exact absurd hlt' (lt_irrefl _)
      · rcases List.mem_cons.mp hw2 with heq | hw3
        · exact absurd ((congrArg Prod.fst heq).trans hv') hwv
        · have hpair' := hpair
          rw [hdec, List.map_append, List.map_cons] at hpair'
          have h2 := (List.pairwise_append.mp hpair').2.1
          have hres := (List.pairwise_cons.mp h2).1 w
            (List.mem_map.mpr ⟨(w, L), hw3, rfl⟩)
          rw [hv'] at hres
          exact hres

/-- C8: for every collection the analyzer accepts, the page reported by
`page_with_most_annotations` has a maximal per-page count, and every other
page achieving the same count is first encountered strictly later in the
collection's input order (`fOcc` is the index of a value's first occurrence);
`most_common_type` obeys the same first-seen tie policy for types. -/
theorem c8_tie_break_first_seen (anns : List PyDict) (an : Analyzer)
    (h : Analyzer.init anns = some an) :
    (∀ v, (get_statistics an).page_with_most = some v →
      (∀ w, countKey "page" anns w ≤ countKey "page" anns v) ∧
      (∀ w, w ≠ v → countKey "page" anns w = countKey "page" anns v →
        fOcc "page" v anns < fOcc "page" w anns)) ∧
    (∀ v, (get_statistics an).most_common_type = some v →
      (∀ w, countKey "type" anns w ≤ countKey "type" anns v) ∧
      (∀ w, w ≠ v → countKey "type" anns w = countKey "type" anns v →
        fOcc "type" v anns < fOcc "type" w anns)) := by
  obtain ⟨bp, hbp, bt, hbt, ba, hba, han⟩ :
      ∃ bp, groupByKey "page" anns [] = some bp ∧
      ∃ bt, groupByKey "type" anns [] = some bt ∧
      ∃ ba, groupByKey "author" anns [] = some ba ∧
      an = ⟨anns, bp, bt, ba⟩ := by
    cases hbp : groupByKey "page" anns [] with
    | none => simp [Analyzer.init, hbp] at h
    | some bp =>
      cases hbt : groupByKey "type" anns [] with
      | none => simp [Analyzer.init, hbp, hbt] at h
      | some bt =>
        cases hba : groupByKey "author" anns [] with
        | none => simp [Analyzer.init, hbp, hbt, hba] at h
        | some ba =>
          refine ⟨bp, rfl, bt, rfl, ba, rfl, ?_⟩
          simp [Analyzer.init, hbp, hbt, hba] at h
          exact h.symm
  subst han
  constructor
  · intro v hv
    exact maxgroup_first_seen "page" anns bp hbp v (by simpa [get_statistics] using hv)
  · intro v hv
    exact maxgroup_first_seen "type" anns bt hbt v (by simpa [get_statistics] using hv)

/-- Instantiation of `c8_tie_break_first_seen` at `demoAnns`, where pages 7
and 3 are tied at two annotations each and page 7 is first encountered. -/
theorem c8_tie_break_first_seen_witness :
    (∀ w, countKey "page" demoAnns w ≤ countKey "page" demoAnns (.vint 7)) ∧
    (∀ w, w ≠ Value.vint 7 →
      countKey "page" demoAnns w = countKey "page" demoAnns (.vint 7) →
      fOcc "page" (.vint 7) demoAnns < fOcc "page" w demoAnns) :=
  (c8_tie_break_first_seen demoAnns demoAn (by decide)).1 (.vint 7) (by decide)

end PdfExtract
